import Mathlib

/-!
Verification development for the multi-site rant script
(`src/utils/rant-multi-site.js`).

Documents are modelled as `List Char`.  JavaScript string primitives used by
the script (`indexOf`-style first-occurrence search, `slice`, `includes`,
regex matching for the specific regexes appearing in the source) are embedded
as executable Lean functions.  The regexes in the source contain no
backreferences or lookaround; each one is hand-compiled to a deterministic
matcher below, following JavaScript semantics (leftmost match, ordered
alternation, greedy quantifiers with backtracking where it can matter).
-/

namespace RantScript

abbrev Str := List Char

/-- Coerce a string literal to the `List Char` representation. -/
def str (s : String) : Str := s.data

/-! ## Generic string search primitives -/

/-- `occursAtB s pat j` holds when `pat` occurs in `s` starting at index `j`
(JavaScript substring occurrence). -/
def occursAtB (s pat : Str) (j : Nat) : Bool := pat.isPrefixOf (s.drop j)

/-- Scan for the first occurrence of `pat`; returns its index.  This is the
behaviour of `String.prototype.match` with a literal pattern (index of the
first match) and of `String.prototype.includes` (when tested with `isSome`). -/
def firstIdxAux (pat : Str) : Str → Option Nat
  | [] => if pat.isPrefixOf ([] : Str) then some 0 else none
  | c :: t =>
    if pat.isPrefixOf (c :: t) then some 0
    else (firstIdxAux pat t).map (· + 1)

def firstIndexOf (s pat : Str) : Option Nat := firstIdxAux pat s

/-- JavaScript `String.prototype.includes`. -/
def containsSub (s pat : Str) : Bool := (firstIndexOf s pat).isSome

/-- Number of (possibly overlapping) occurrence positions of `pat` in `s`.
Used to state "exactly one section / entry" properties. -/
def countOcc (pat : Str) : Str → Nat
  | [] => 0
  | c :: t => (if pat.isPrefixOf (c :: t) then 1 else 0) + countOcc pat t

/-! ## The URL auto-linking regex (`autoLinkUrls`, source lines 374-392)

The source regex has three ordered alternatives:
1. `https?:\/\/(?:[-\w.])+(?::\d+)?(path)*(query)?(frag)?`
2. `www\.(?:[-\w.])+(?::\d+)?(path)*(query)?(frag)?`
3. `(?:[a-zA-Z0-9](?:[a-zA-Z0-9-]{0,61}[a-zA-Z0-9])?\.)+[a-zA-Z]{2,}` with
   the same optional tail.
Every quantifier is greedy.  For alternatives 1 and 2 the continuation after
each greedy repetition starts with a character excluded from the repeated
class, so maximal munch is exact.  In alternative 3 a domain label
`[a-zA-Z0-9](?:[a-zA-Z0-9-]{0,61}[a-zA-Z0-9])?\.` can never span a `.`
(the repeated class excludes it), so each label match is deterministic; only
the number of labels consumed by the outer `+` backtracks, which is encoded
by trying the longest label chain first. -/

def isWordChar (c : Char) : Bool := c.isAlpha || c.isDigit || c = '_'

def isHostChar (c : Char) : Bool := isWordChar c || c = '-' || c = '.'

def isHexDigit (c : Char) : Bool :=
  c.isDigit || ('a' ≤ c && c ≤ 'f') || ('A' ≤ c && c ≤ 'F')

/-- The class `[\w._~!$&'()*+,;=:@]` of the path segments. -/
def isPathChar (c : Char) : Bool :=
  isWordChar c || c = '.' || c = '~' || c = '!' || c = '$' || c = '&' ||
  c = '\'' || c = '(' || c = ')' || c = '*' || c = '+' || c = ',' ||
  c = ';' || c = '=' || c = ':' || c = '@'

/-- The class `[\w._~!$&'()*+,;=:@/?]` of the query and fragment parts. -/
def isQFChar (c : Char) : Bool := isPathChar c || c = '/' || c = '?'

def isAlnum (c : Char) : Bool := c.isAlpha || c.isDigit

/-- The class `[a-zA-Z0-9-]` inside a domain label. -/
def isLabelChar (c : Char) : Bool := isAlnum c || c = '-'

/-- Greedy `p*`: number of leading characters satisfying `p`. -/
def munchCount (p : Char → Bool) : Str → Nat
  | [] => 0
  | c :: t => if p c then munchCount p t + 1 else 0

/-- Greedy `(?:[class]|%[0-9A-Fa-f]{2})*`: characters of the class or
percent-escapes. -/
def munchEsc (p : Char → Bool) : Str → Nat
  | [] => 0
  | c :: t =>
    if p c then munchEsc p t + 1
    else if c = '%' then
      match t with
      | a :: b :: t2 =>
        if isHexDigit a && isHexDigit b then munchEsc p t2 + 3 else 0
      | _ => 0
    else 0

/-- `(?::\d+)?` — an optional port. -/
def portLen : Str → Nat
  | c :: t =>
    if c = ':' then
      let d := munchCount Char.isDigit t
      if d = 0 then 0 else d + 1
    else 0
  | [] => 0

/-- `(?:\/(?:[\w._~!$&'()*+,;=:@]|%[0-9A-Fa-f]{2})*)*` — path segments.
Each iteration consumes at least the `/`, so `fuel := length` suffices. -/
def pathSegsAux : Nat → Str → Nat
  | 0, _ => 0
  | fuel + 1, s =>
    match s with
    | c :: t =>
      if c = '/' then
        let k := munchEsc isPathChar t
        k + 1 + pathSegsAux fuel (t.drop k)
      else 0
    | [] => 0

def pathSegsLen (s : Str) : Nat := pathSegsAux s.length s

/-- `(?:X(?:[class]|%hh)*)?` for `X = '?'` (query) or `X = '#'` (fragment). -/
def optPartLen (x : Char) (p : Char → Bool) : Str → Nat
  | c :: t => if c = x then munchEsc p t + 1 else 0
  | [] => 0

/-- The optional tail `(?::\d+)?(path)*(query)?(frag)?` shared by all three
alternatives. -/
def urlTailLen (s : Str) : Nat :=
  let pr := portLen s
  let s1 := s.drop pr
  let pa := pathSegsLen s1
  let s2 := s1.drop pa
  let q := optPartLen '?' isQFChar s2
  let s3 := s2.drop q
  let f := optPartLen '#' isQFChar s3
  pr + pa + q + f

/-- `(?:[-\w.])+` followed by the tail; fails when no host character is
present. -/
def hostPlusTail (s : Str) : Option Nat :=
  let h := munchCount isHostChar s
  if h = 0 then none else some (h + urlTailLen (s.drop h))

/-- Alternative 1: `https?:\/\/` then host and tail. -/
def alt1Len (s : Str) : Option Nat :=
  if (str "https://").isPrefixOf s then (hostPlusTail (s.drop 8)).map (· + 8)
  else if (str "http://").isPrefixOf s then (hostPlusTail (s.drop 7)).map (· + 7)
  else none

/-- Alternative 2: `www\.` then host and tail. -/
def alt2Len (s : Str) : Option Nat :=
  if (str "www.").isPrefixOf s then (hostPlusTail (s.drop 4)).map (· + 4)
  else none

/-- One domain label `[a-zA-Z0-9](?:[a-zA-Z0-9-]{0,61}[a-zA-Z0-9])?\.`
including its closing dot.  The label body cannot span a dot, so the match
length is unique: the inner run must extend exactly to the first character
outside `[a-zA-Z0-9-]`, which must be the closing `.`. -/
def labelLen : Str → Option Nat
  | [] => none
  | c :: t =>
    if isAlnum c then
      let r := munchCount isLabelChar t
      if r = 0 then
        match t with
        | d :: _ => if d = '.' then some 2 else none
        | [] => none
      else
        if r ≤ 62 then
          match t.drop (r - 1) with
          | lc :: d :: _ =>
            if isAlnum lc && d = '.' then some (r + 2) else none
          | _ => none
        else none
    else none

/-- Cumulative lengths after one, two, ... labels (the deterministic label
chain).  Each label consumes at least two characters, so `fuel := length`
suffices. -/
def labelChainAux : Nat → Str → List Nat
  | 0, _ => []
  | fuel + 1, s =>
    match labelLen s with
    | none => []
    | some n => n :: (labelChainAux fuel (s.drop n)).map (n + ·)

/-- `[a-zA-Z]{2,}` then the tail. -/
def tldTailAt (s : Str) : Option Nat :=
  let t := munchCount Char.isAlpha s
  if t < 2 then none else some (t + urlTailLen (s.drop t))

def firstSomeMap (f : Nat → Option Nat) : List Nat → Option Nat
  | [] => none
  | x :: xs =>
    match f x with
    | some v => some v
    | none => firstSomeMap f xs

/-- Alternative 3: one or more labels then a TLD and the tail.  The greedy
`+` tries the longest label chain first and backtracks to shorter chains. -/
def alt3Len (s : Str) : Option Nat :=
  firstSomeMap (fun n => (tldTailAt (s.drop n)).map (· + n))
    (labelChainAux s.length s).reverse

/-- Attempt the whole URL regex at the head of `s`; JavaScript alternation is
ordered, so the first succeeding alternative wins. -/
def tryMatchAt (s : Str) : Option Nat :=
  match alt1Len s with
  | some n => some n
  | none =>
    match alt2Len s with
    | some n => some n
    | none => alt3Len s

/-- The trailing-punctuation class `[.,;:!?]` of the replacer. -/
def isTrailPunct (c : Char) : Bool :=
  c = '.' || c = ',' || c = ';' || c = ':' || c = '!' || c = '?'

/-- `match.replace(/[.,;:!?]+$/, '')`: remove the maximal trailing run of
punctuation characters. -/
def stripTrailingPunct (m : Str) : Str :=
  (m.reverse.dropWhile isTrailPunct).reverse

/-- The scheme test of the replacer (source line 386). -/
def hasUrlScheme (u : Str) : Bool :=
  (str "http://").isPrefixOf u || (str "https://").isPrefixOf u ||
  (str "ftp://").isPrefixOf u

/-- The replacement callback of `autoLinkUrls` (source lines 378-391). -/
def linkReplacer (m : Str) : Str :=
  let cleanMatch := stripTrailingPunct m
  let trailing := m.drop cleanMatch.length
  let url := if hasUrlScheme cleanMatch then cleanMatch
             else str "https://" ++ cleanMatch
  str "<a href=\"" ++ url ++
    str "\" target=\"_blank\" rel=\"noopener noreferrer\">" ++ cleanMatch ++
    str "</a>" ++ trailing

/-- `text.replace(urlRegex, replacer)` with the global flag: scan left to
right, replace each leftmost match and continue after it.  Every match
consumes at least one character, so `fuel := length` suffices. -/
def autoLinkAux : Nat → Str → Str
  | 0, s => s
  | _ + 1, [] => []
  | fuel + 1, c :: t =>
    match tryMatchAt (c :: t) with
    | some n => linkReplacer ((c :: t).take n) ++ autoLinkAux fuel ((c :: t).drop n)
    | none => c :: autoLinkAux fuel t

def autoLinkUrls (s : Str) : Str := autoLinkAux s.length s

/-- `true` when the URL regex matches somewhere in `s` (a "URL-like token"
is present). -/
def hasUrlToken : Str → Bool
  | [] => false
  | c :: t => (tryMatchAt (c :: t)).isSome || hasUrlToken t

/-! ## Document literals and rendered markup (source lines 415-481) -/

/-- The container marker `<div class="rants-timeline">`. -/
def markerLit : Str := str "<div class=\"rants-timeline\">"

/-- The generic day-section opener searched for on line 453. -/
def dayPre : Str := str "<div class=\"rant-day\" data-date=\""

/-- The day-section opener for a specific date key (the `datePattern` of
line 424, which is a literal because date keys contain no regex
metacharacters). -/
def dayLit (date : Str) : Str := dayPre ++ date ++ str "\">"

def hdrLit : Str := str "<div class=\"date-header\">"

def spanLit : Str := str "<span class=\"date\">"

def spanClose : Str := str "</span>"

def divClose : Str := str "</div>"

/-- JavaScript `\s` (whitespace class): ASCII whitespace, NBSP, and the\nUnicode space separators, line and paragraph separators and BOM. -/
def isJsSpace (c : Char) : Bool :=
  c = ' ' || c = '\t' || c = '\n' || c = '\r' ||
  c = '\x0b' || c = '\x0c' || c.val = 0xa0 || c.val = 0x1680 ||
  (0x2000 ≤ c.val && c.val ≤ 0x200a) ||
  c.val = 0x2028 || c.val = 0x2029 || c.val = 0x202f || c.val = 0x205f ||
  c.val = 0x3000 || c.val = 0xfeff

/-- Match a literal at the head of `s`, returning the remainder. -/
def litAt (lit s : Str) : Option Str :=
  if lit.isPrefixOf s then some (s.drop lit.length) else none

/-- `[^<]+` (at least one character, none of them `<`). -/
def nonLtPlus : Str → Option Str
  | [] => none
  | c :: t => if c = '<' then none else some (t.dropWhile (fun d => !(d = '<')))

/-- Attempt the `dateHeaderPattern` regex of source line 432 at the head of
`s`:
`dayLit date` `\s*` `<div class="date-header">` `\s*` `<span class="date">`
`[^<]+` `</span>` `\s*` `</div>`.
Returns the remainder after the match.  Every `\s*` is greedy and is
followed by a literal starting with `<` (not a space), and `[^<]+` is
followed by a literal starting with `<`, so maximal munch is exact. -/
def matchHeaderAt (date : Str) (s : Str) : Option Str := do
  let s1 ← litAt (dayLit date) s
  let s2 ← litAt hdrLit (s1.dropWhile isJsSpace)
  let s3 ← litAt spanLit (s2.dropWhile isJsSpace)
  let s4 ← nonLtPlus s3
  let s5 ← litAt spanClose s4
  litAt divClose (s5.dropWhile isJsSpace)

/-- First match of the `dateHeaderPattern` regex in `content`: index and
match length (semantics of `content.match(dateHeaderPattern)` on line 433). -/
def findHeaderAux (date : Str) : Str → Option (Nat × Nat)
  | [] => none
  | c :: t =>
    match matchHeaderAt date (c :: t) with
    | some rest => some (0, (c :: t).length - rest.length)
    | none => (findHeaderAux date t).map (fun p => (p.1 + 1, p.2))

def findHeader (content date : Str) : Option (Nat × Nat) := findHeaderAux date content

/-- The entry markup of source lines 438-448.  The source applies
`.replace(/\n/g, '\n')` to the auto-linked text, which replaces every
newline by itself and is therefore the identity. -/
def entryHtml (time rantId rantText : Str) : Str :=
  str "\n\n<div class=\"rant-entry\" id=\"" ++ rantId ++
  str "\">\n<div class=\"time-stamp\">\n" ++ time ++
  str "\n<a href=\"#" ++ rantId ++
  str "\" class=\"rant-anchor\" title=\"Link to this rant\">🔗</a>\n</div>\n<div class=\"rant-content\">\n" ++
  autoLinkUrls rantText ++ str "\n</div>\n</div>"

/-- The canonical header block of a day section, as rendered by the source
(part of the lines 462-480 template): day-section opener, newline,
date-header div, newline, date span, newline, closing div. -/
def headerBlock (date displayDate : Str) : Str :=
  dayLit date ++ '\n' :: (hdrLit ++ '\n' :: (spanLit ++ displayDate ++ spanClose ++ '\n' :: divClose))

/-- The part of the canonical header block after the day-section opener. -/
def blockTail (dd : Str) : Str :=
  '\n' :: (hdrLit ++ '\n' :: (spanLit ++ dd ++ spanClose ++ '\n' :: divClose))

/-- The brand-new day-section markup of source lines 462-480. -/
def sectionHtml (date displayDate time rantId rantText : Str) : Str :=
  str "\n\n<!-- " ++ date ++ str " -->\n" ++ headerBlock date displayDate ++
  entryHtml time rantId rantText ++ str "\n\n</div>"

/-! ## The insertion planner (`insertRant`, source lines 394-496) -/

inductive InsertError
  | structureError
deriving DecidableEq, Repr

/-- The splice of source line 484:
`content.slice(0, insertPosition) + newRantHTML + content.slice(insertPosition)`.
When the existing-date branch fails to locate the header, `insertPosition`
and `newRantHTML` are still the JavaScript value `undefined`; then
`slice(0, undefined)` and `slice(undefined)` both return the whole string
and `newRantHTML` is coerced to the string `"undefined"`. -/
def jsSplice (content : Str) : Option (Nat × Str) → Str
  | some (p, h) => content.take p ++ h ++ content.drop p
  | none => content ++ str "undefined" ++ content

/-- The insertion position and markup computed by lines 423-481, as one
value (`none` models both remaining `undefined`). -/
def insertPlan (content date displayDate time rantId rantText : Str)
    (timelineStart : Nat) : Option (Nat × Str) :=
  if (firstIndexOf content (dayLit date)).isSome then
    (findHeader content date).map
      (fun p => (p.1 + p.2, entryHtml time rantId rantText))
  else
    some (match firstIndexOf (content.drop timelineStart) dayPre with
          | some k => timelineStart + k
          | none => timelineStart,
          sectionHtml date displayDate time rantId rantText)

/-- The pure content→content part of `insertRant` (lines 414-487): find the
container marker (fail with a structure error if absent, in which case the
source exits before any write), then compute the plan and splice. -/
def insertRant (content date displayDate time rantId rantText : Str) :
    Except InsertError Str :=
  match firstIndexOf content markerLit with
  | none => .error .structureError
  | some idx =>
    let timelineStart := idx + markerLit.length
    .ok (jsSplice content
      (insertPlan content date displayDate time rantId rantText timelineStart))

/-- The on-disk document after running `insertRant`: the source calls
`fs.writeFileSync` only after a successful splice; on the structure-error
path it exits before writing, leaving the file as it was. -/
def finalDisk (content date displayDate time rantId rantText : Str) : Str :=
  match insertRant content date displayDate time rantId rantText with
  | .ok newContent => newContent
  | .error _ => content

/-! ## The synchronization orchestrator (`gitOperations` and `main`,
source lines 499-532 and 623-692)

External process calls are modelled by their observable repository effects:
the orchestrator functions return the list of repository steps they perform.
Outcomes of injected externals (the pull) are parameters; the remaining
`execSync` calls are modelled as succeeding, which is the path the claims
below are about. -/

inductive GitStep
  | status
  | add (file : Str)
  | commit (message : Str)
  | push (branch : Str)
deriving DecidableEq, Repr

/-- The repository steps performed by `gitOperations` (lines 499-532), as a
function of the porcelain status output observed.  The source runs
`git status --porcelain` (unscoped) and returns early when the output does
not contain the target filename as a substring (`status.includes(file)`);
otherwise it stages the file, commits when requested (defaulting the
message), and pushes to the configured branch when requested. -/
def gitOperations (commit push : Bool) (message : Option Str)
    (file branch statusOut defaultMsg : Str) : List GitStep :=
  if containsSub statusOut file = false then [GitStep.status]
  else
    GitStep.status :: GitStep.add file ::
      (if commit then
        GitStep.commit (message.getD defaultMsg) ::
          (if push then [GitStep.push branch] else [])
      else [])

/-- Porcelain status output for a list of modified paths: one ` M path`
line per path.  Used to state "no change to the target file is detected":
the target file is unchanged exactly when it is not among the listed
paths. -/
def renderStatus : List Str → Str
  | [] => []
  | p :: ps => str " M " ++ (p ++ '\n' :: renderStatus ps)

/-- The option record built by `parseArgs` (source lines 111-189). -/
structure Options where
  commit : Bool
  push : Bool
  editorOpt : Bool
  guiEditor : Bool
  aiFormat : Bool
  config : Bool
  showEnv : Bool
  message : Option Str
  rantText : Option Str
  site : Str
deriving DecidableEq, Repr

/-- The defaults of source lines 113-124. -/
def defaultOptions : Options :=
  { commit := false, push := false, editorOpt := false, guiEditor := false,
    aiFormat := false, config := false, showEnv := false, message := none,
    rantText := none, site := str "tourwithmark" }

def joinSpaces (l : List Str) : Str := List.intercalate (str " ") l

/-- JavaScript `arg.startsWith('-')`. -/
def startsDash : Str → Bool
  | '-' :: _ => true
  | _ => false

/-- JavaScript `toLowerCase` restricted to the ASCII range used by site
names. -/
def lowerStr (s : Str) : Str := s.map Char.toLower

/-- The argument loop of `parseArgs` (lines 126-186): one case per switch
label, in source order.  `-m`/`-s` consume the following argument when one
exists; an unknown site exits with code 1; `-h` shows help and exits with
code 0; an unrecognized dash argument is ignored; the first other argument
and everything after it become the rant text, ending the loop. -/
def parseLoop (sites : List Str) : Options → List Str → Except Nat Options
  | o, [] => .ok o
  | o, a :: rest =>
    if a = str "-c" ∨ a = str "--commit" then
      parseLoop sites { o with commit := true } rest
    else if a = str "-p" ∨ a = str "--push" then
      parseLoop sites { o with push := true, commit := true } rest
    else if a = str "-e" ∨ a = str "--editor" then
      parseLoop sites { o with editorOpt := true } rest
    else if a = str "--gui" then
      parseLoop sites { o with guiEditor := true, editorOpt := true } rest
    else if a = str "-m" ∨ a = str "--message" then
      match rest with
      | v :: rest2 => parseLoop sites { o with message := some v } rest2
      | [] => parseLoop sites o []
    else if a = str "-f" ∨ a = str "--format" then
      parseLoop sites { o with aiFormat := true } rest
    else if a = str "-s" ∨ a = str "--site" then
      match rest with
      | v :: rest2 =>
        if lowerStr v ∈ sites then
          parseLoop sites { o with site := lowerStr v } rest2
        else .error 1
      | [] => parseLoop sites o []
    else if a = str "--config" then
      parseLoop sites { o with config := true } rest
    else if a = str "--env" then
      parseLoop sites { o with showEnv := true } rest
    else if a = str "-h" ∨ a = str "--help" then .error 0
    else if startsDash a then parseLoop sites o rest
    else .ok { o with rantText := some (joinSpaces (a :: rest)) }

def parseArgs (sites : List Str) (args : List Str) : Except Nat Options :=
  parseLoop sites defaultOptions args

/-- The rant text as claim C10 describes it: the first argument that does
not start with `-`, joined with every argument after it. -/
def claimRantText (args : List Str) : Option Str :=
  match args.dropWhile startsDash with
  | [] => none
  | a :: rest => some (joinSpaces (a :: rest))

/-- The rant text actually produced by the parser. -/
def parsedRantText (sites : List Str) (args : List Str) : Option Str :=
  match parseArgs sites args with
  | .ok o => o.rantText
  | .error _ => none

inductive MainEv
  | pull (branch : Str)
  | write
  | git (g : GitStep)
deriving DecidableEq, Repr

/-- The orchestration of `main` (lines 623-692) from the point where the
rant text has been resolved (command line, stdin or editor — folded into
`resolvedText`; AI formatting is an external text transform and is folded
in as well).  Returns the events performed, the exit code (`none` = clean
return) and the final document content.  When push was requested the pull
runs first; a pull failure exits with code 1 before `insertRant` runs; a
structure error from `insertRant` exits with code 1 before any write; on a
successful insertion the new content is written and, when commit or push
was requested, `gitOperations` runs. -/
def mainModel (o : Options) (resolvedText : Option Str) (pullOk : Bool)
    (content date displayDate time rantId : Str)
    (statusOut defaultMsg siteFile siteBranch : Str) :
    List MainEv × Option Nat × Str :=
  if o.showEnv then ([], none, content)
  else if o.config then ([], none, content)
  else
    match resolvedText with
    | none => ([], some 1, content)
    | some t =>
      if t = [] then ([], some 1, content)
      else
        let pullEvs : List MainEv :=
          if o.push then [MainEv.pull siteBranch] else []
        if o.push && !pullOk then (pullEvs, some 1, content)
        else
          match insertRant content date displayDate time rantId t with
          | .error _ => (pullEvs, some 1, content)
          | .ok newContent =>
            if o.commit || o.push then
              (pullEvs ++ MainEv.write ::
                (gitOperations o.commit o.push o.message siteFile siteBranch
                  statusOut defaultMsg).map MainEv.git,
               none, newContent)
            else (pullEvs ++ [MainEv.write], none, newContent)

/-- The document of the C2 witness: the container marker followed by a
closing div, with no day sections yet. -/
def doc2 : Str := str "<div class=\"rants-timeline\">\n</div>"

/-- A document whose day section for `2024-01-01` exists but is malformed
(no date-header block), so the `dateHeaderPattern` regex cannot match. -/
def doc5 : Str :=
  str "<div class=\"rants-timeline\">\n<div class=\"rant-day\" data-date=\"2024-01-01\">broken</div>\n</div>"

/-- The opener common to every rendered entry. -/
def entryPre : Str := str "<div class=\"rant-entry\""

/-- The document of the C4 witness: the container marker followed by a
day section dated 2024-01-15 — inserting a 2024-02-01 entry must splice
the new section before it (the cross-day ordering scenario). -/
def doc4 : Str :=
  str "<div class=\"rants-timeline\">\n\n<!-- 2024-01-15 -->\n<div class=\"rant-day\" data-date=\"2024-01-15\">\n<div class=\"date-header\">\n<span class=\"date\">January 15, 2024</span>\n</div>\n</div>\n</div>"

/-! ## Toolkit lemmas about occurrence search -/

theorem occursAtB_zero (s pat : Str) : occursAtB s pat 0 = pat.isPrefixOf s := rfl

theorem occursAtB_succ (c : Char) (t pat : Str) (j : Nat) :
    occursAtB (c :: t) pat (j + 1) = occursAtB t pat j := rfl

theorem isPrefixOf_append_self (pat y : Str) : pat.isPrefixOf (pat ++ y) = true := by
  rw [List.isPrefixOf_iff_prefix]
  exact List.prefix_append pat y

theorem isPrefixOf_take (pat l : Str) (m : Nat) (h : pat.length ≤ m) :
    pat.isPrefixOf (l.take m) = pat.isPrefixOf l := by
  rw [Bool.eq_iff_iff, List.isPrefixOf_iff_prefix, List.isPrefixOf_iff_prefix,
    List.prefix_take_iff]
  exact ⟨fun hx => hx.1, fun hx => ⟨hx, h⟩⟩

/-- Occurrence testing within the first `N` characters sees only those
characters. -/
theorem occursAtB_take (s pat : Str) (j N : Nat) (h : j + pat.length ≤ N) :
    occursAtB (s.take N) pat j = occursAtB s pat j := by
  unfold occursAtB
  rw [List.drop_take, isPrefixOf_take]
  omega

theorem occursAtB_append_right (x y pat : Str) (j : Nat) :
    occursAtB (x ++ y) pat (x.length + j) = occursAtB y pat j := by
  unfold occursAtB
  rw [List.drop_append]

theorem occursAtB_self (x y pat : Str) :
    occursAtB (x ++ (pat ++ y)) pat x.length = true := by
  unfold occursAtB
  rw [show x.length = x.length + 0 by omega, List.drop_append, List.drop_zero]
  exact isPrefixOf_append_self pat y

theorem firstIdxAux_eq_some (pat : Str) :
    ∀ (s : Str) (p : Nat), firstIdxAux pat s = some p ↔
      occursAtB s pat p = true ∧ ∀ j < p, occursAtB s pat j = false := by
  intro s
  induction s with
  | nil =>
    intro p
    unfold firstIdxAux
    rcases hp : pat.isPrefixOf ([] : Str) with _ | _
    · rw [if_neg (by simp [hp])]
      constructor
      · intro hc; exact absurd hc (by simp)
      · intro ⟨h1, _⟩
        rw [show occursAtB [] pat p = pat.isPrefixOf ([] : Str) by
          unfold occursAtB; rw [List.drop_nil], hp] at h1
        exact absurd h1 (by simp)
    · rw [if_pos (by simp [hp])]
      constructor
      · intro hc
        have hp0 : p = 0 := by simpa using hc.symm
        subst hp0
        refine ⟨?_, by omega⟩
        unfold occursAtB; rw [List.drop_nil]; exact hp
      · intro ⟨_, h2⟩
        rcases p with _ | q
        · rfl
        · have := h2 0 (by omega)
          rw [show occursAtB [] pat 0 = pat.isPrefixOf ([] : Str) by
            unfold occursAtB; rw [List.drop_nil], hp] at this
          exact absurd this (by simp)
  | cons c t ih =>
    intro p
    unfold firstIdxAux
    rcases hp : pat.isPrefixOf (c :: t) with _ | _
    · rw [if_neg (by simp [hp])]
      simp only [Option.map_eq_some']
      constructor
      · intro ⟨q, hq, hpq⟩
        obtain ⟨h1, h2⟩ := (ih q).mp hq
        subst hpq
        refine ⟨by rw [occursAtB_succ]; exact h1, ?_⟩
        intro j hj
        rcases j with _ | j'
        · rw [occursAtB_zero]; exact hp
        · rw [occursAtB_succ]; exact h2 j' (by omega)
      · intro ⟨h1, h2⟩
        rcases p with _ | q
        · rw [occursAtB_zero] at h1; rw [hp] at h1; exact absurd h1 (by simp)
        · refine ⟨q, (ih q).mpr ⟨by rw [← occursAtB_succ c]; exact h1, ?_⟩, rfl⟩
          intro j hj
          have := h2 (j + 1) (by omega)
          rwa [occursAtB_succ] at this
    · rw [if_pos (by simp [hp])]
      constructor
      · intro hc
        have hp0 : p = 0 := by simpa using hc.symm
        subst hp0
        exact ⟨by rw [occursAtB_zero]; exact hp, by omega⟩
      · intro ⟨_, h2⟩
        rcases p with _ | q
        · rfl
        · have := h2 0 (by omega)
          rw [occursAtB_zero, hp] at this
          exact absurd this (by simp)

theorem firstIndexOf_eq_some (s pat : Str) (p : Nat) :
    firstIndexOf s pat = some p ↔
      occursAtB s pat p = true ∧ ∀ j < p, occursAtB s pat j = false :=
  firstIdxAux_eq_some pat s p

theorem firstIndexOf_none (s pat : Str) (h : firstIndexOf s pat = none) :
    ∀ j, occursAtB s pat j = false := by
  intro j
  rcases ho : occursAtB s pat j with _ | _
  · rfl
  · exfalso
    have hex : ∃ p, occursAtB s pat p = true := ⟨j, ho⟩
    have hm := Nat.find_spec hex
    have hmin : ∀ k < Nat.find hex, occursAtB s pat k = false := by
      intro k hk
      have hnot := Nat.find_min hex hk
      simpa using hnot
    have hsome : firstIndexOf s pat = some (Nat.find hex) :=
      (firstIndexOf_eq_some s pat _).mpr ⟨hm, hmin⟩
    rw [h] at hsome
    exact absurd hsome (by simp)

theorem containsSub_false_iff (s pat : Str) :
    containsSub s pat = false ↔ firstIndexOf s pat = none := by
  unfold containsSub
  rcases hfi : firstIndexOf s pat with _ | v <;> simp

/-! ## Claim C1: missing container marker -/

/-- C1: for every document text that does not contain the container marker
(the rants-timeline div), `insertRant` reports the structure error and the
on-disk document is left byte-identical to the input — no write of the
document file occurs on this path. -/
theorem claim1_no_container_error_and_no_write
    (content date displayDate time rantId rantText : Str)
    (h : containsSub content markerLit = false) :
    insertRant content date displayDate time rantId rantText =
      .error .structureError ∧
    finalDisk content date displayDate time rantId rantText = content := by
  have hn : firstIndexOf content markerLit = none :=
    (containsSub_false_iff content markerLit).mp h
  have hr : insertRant content date displayDate time rantId rantText =
      .error .structureError := by
    unfold insertRant
    rw [hn]
  exact ⟨hr, by unfold finalDisk; rw [hr]⟩

theorem claim1_witness :
    containsSub (str "# Just notes, no timeline here") markerLit = false ∧
    (insertRant (str "# Just notes, no timeline here") (str "2024-01-01")
        (str "January 1, 2024") (str "9:00 AM") (str "rant-2024-01-01-1")
        (str "hi") = .error .structureError ∧
      finalDisk (str "# Just notes, no timeline here") (str "2024-01-01")
        (str "January 1, 2024") (str "9:00 AM") (str "rant-2024-01-01-1")
        (str "hi") = str "# Just notes, no timeline here") :=
  ⟨by decide,
    claim1_no_container_error_and_no_write (str "# Just notes, no timeline here")
      (str "2024-01-01") (str "January 1, 2024") (str "9:00 AM")
      (str "rant-2024-01-01-1") (str "hi") (by decide)⟩

/-! ## Claim C2: a successful insertion is a single frame-preserving splice -/

/-- C2: for every successful insertion (container marker present and an
insertion position located), the new document equals an unchanged prefix of
the original, then the newly rendered markup, then the unchanged remainder:
every byte outside the single insertion point is preserved. -/
theorem claim2_success_is_single_splice
    (content date displayDate time rantId rantText : Str) (idx p : Nat)
    (html : Str)
    (hm : firstIndexOf content markerLit = some idx)
    (hp : insertPlan content date displayDate time rantId rantText
            (idx + markerLit.length) = some (p, html)) :
    insertRant content date displayDate time rantId rantText =
      .ok (content.take p ++ html ++ content.drop p) ∧
    content.take p ++ content.drop p = content := by
  refine ⟨?_, List.take_append_drop p content⟩
  unfold insertRant
  rw [hm]
  show Except.ok (jsSplice content (insertPlan content date displayDate time
    rantId rantText (idx + markerLit.length))) = _
  rw [hp]
  rfl

theorem claim2_witness :
    firstIndexOf doc2 markerLit = some 0 ∧
    insertPlan doc2 (str "2024-01-01") (str "January 1, 2024") (str "9:00 AM")
      (str "rant-2024-01-01-1") (str "hi") (0 + markerLit.length) =
      some (28, sectionHtml (str "2024-01-01") (str "January 1, 2024")
        (str "9:00 AM") (str "rant-2024-01-01-1") (str "hi")) ∧
    (insertRant doc2 (str "2024-01-01") (str "January 1, 2024") (str "9:00 AM")
        (str "rant-2024-01-01-1") (str "hi") =
      .ok (doc2.take 28 ++ sectionHtml (str "2024-01-01") (str "January 1, 2024")
        (str "9:00 AM") (str "rant-2024-01-01-1") (str "hi") ++ doc2.drop 28) ∧
      doc2.take 28 ++ doc2.drop 28 = doc2) :=
  ⟨rfl, rfl,
    claim2_success_is_single_splice doc2 (str "2024-01-01")
      (str "January 1, 2024") (str "9:00 AM") (str "rant-2024-01-01-1")
      (str "hi") 0 28 _ rfl rfl⟩

/-! ## Claim C5: existing day section with an unmatchable header block

The source (lines 430-449) leaves `insertPosition` and `newRantHTML` as the
JavaScript value `undefined` when the date section exists but the header
regex fails.  Line 484 then computes `content + "undefined" + content` and
line 487 writes it back, reporting success: the document is corrupted, not
left untouched, and no structural failure is surfaced. -/

/-- C5 evaluated at the failing input: the source reports success and the
resulting document is `doc5 ++ "undefined" ++ doc5`, which differs from the
original — contradicting the claim that no insertion occurs, nothing is
written back and a structural failure is surfaced. -/
theorem claim5_malformed_header_writes_corrupted_document :
    insertRant doc5 (str "2024-01-01") (str "January 1, 2024") (str "9:00 AM")
      (str "rant-2024-01-01-1") (str "hi") =
      .ok (doc5 ++ str "undefined" ++ doc5) ∧
    doc5 ++ str "undefined" ++ doc5 ≠ doc5 := by
  exact ⟨rfl, by decide⟩

/-! ## Claim C4: placement of a brand-new day section -/

set_option maxRecDepth 100000 in
/-- C4: for a document containing the container marker but no day section
for the date key, the brand-new day section is spliced immediately before
the first day section of any date found after the container marker, or
immediately after the container marker when none exists; and a document
containing only the container marker ends up with exactly one day section
for the date key, holding exactly one entry. -/
theorem claim4_new_day_section_placement
    (content date displayDate time rantId rantText : Str) (idx : Nat)
    (hm : firstIndexOf content markerLit = some idx)
    (hnew : firstIndexOf content (dayLit date) = none) :
    (∀ k, firstIndexOf (content.drop (idx + markerLit.length)) dayPre = some k →
      insertRant content date displayDate time rantId rantText =
        .ok (content.take (idx + markerLit.length + k) ++
          sectionHtml date displayDate time rantId rantText ++
          content.drop (idx + markerLit.length + k))) ∧
    (firstIndexOf (content.drop (idx + markerLit.length)) dayPre = none →
      insertRant content date displayDate time rantId rantText =
        .ok (content.take (idx + markerLit.length) ++
          sectionHtml date displayDate time rantId rantText ++
          content.drop (idx + markerLit.length))) ∧
    countOcc (dayLit (str "2024-01-01"))
      (finalDisk markerLit (str "2024-01-01") (str "January 1, 2024")
        (str "9:00 AM") (str "rant-2024-01-01-1") (str "hi")) = 1 ∧
    countOcc entryPre
      (finalDisk markerLit (str "2024-01-01") (str "January 1, 2024")
        (str "9:00 AM") (str "rant-2024-01-01-1") (str "hi")) = 1 := by
  refine ⟨?_, ?_, by decide, by decide⟩
  · intro k hk
    unfold insertRant
    rw [hm]
    show Except.ok (jsSplice content (insertPlan content date displayDate time
      rantId rantText (idx + markerLit.length))) = _
    unfold insertPlan
    rw [hnew, hk]
    rfl
  · intro hk
    unfold insertRant
    rw [hm]
    show Except.ok (jsSplice content (insertPlan content date displayDate time
      rantId rantText (idx + markerLit.length))) = _
    unfold insertPlan
    rw [hnew, hk]
    rfl

set_option maxRecDepth 100000 in
theorem claim4_witness :
    firstIndexOf doc4 markerLit = some 0 ∧
    firstIndexOf doc4 (dayLit (str "2024-02-01")) = none ∧
    firstIndexOf (doc4.drop (0 + markerLit.length)) dayPre = some 22 ∧
    insertRant doc4 (str "2024-02-01") (str "February 1, 2024") (str "9:00 AM")
      (str "rant-2024-02-01-1") (str "hi") =
      .ok (doc4.take (0 + markerLit.length + 22) ++
        sectionHtml (str "2024-02-01") (str "February 1, 2024") (str "9:00 AM")
          (str "rant-2024-02-01-1") (str "hi") ++
        doc4.drop (0 + markerLit.length + 22)) :=
  ⟨rfl, rfl, rfl,
    (claim4_new_day_section_placement doc4 (str "2024-02-01")
      (str "February 1, 2024") (str "9:00 AM") (str "rant-2024-02-01-1")
      (str "hi") 0 rfl rfl).1 22 rfl⟩

/-! ## Matching the header pattern at a canonically rendered header block -/

theorem bindSomeStep (x : Str) (f : Str → Option Str) :
    (some x : Option Str) >>= f = f x := rfl

theorem litAt_self (lit r : Str) : litAt lit (lit ++ r) = some r := by
  unfold litAt
  rw [if_pos]
  · exact congrArg some (List.drop_left lit r)
  · rw [List.isPrefixOf_iff_prefix]
    exact List.prefix_append lit r

theorem spanClose_cons (w : Str) : spanClose ++ w = '<' :: (str "/span>" ++ w) := rfl

theorem dayLit_cons (date : Str) :
    dayLit date = '<' :: ((str "div class=\"rant-day\" data-date=\"" ++ date) ++ str "\">") := rfl

theorem dayLit_ne_nil (date : Str) : dayLit date ≠ [] := by
  rw [dayLit_cons]
  simp

theorem dropWhile_space_nl_lt (u : Str) (hu : u.head? = some '<') :
    ('\n' :: u).dropWhile isJsSpace = u := by
  rw [List.dropWhile_cons, if_pos (by decide)]
  cases u with
  | nil => simp at hu
  | cons c t =>
    have hc : c = '<' := by simpa using hu
    subst hc
    rw [List.dropWhile_cons, if_neg (by decide)]

theorem nonLtPlus_append (dd w : Str) (hne : dd ≠ [])
    (hlt : ∀ c ∈ dd, ¬ c = '<') :
    nonLtPlus (dd ++ '<' :: w) = some ('<' :: w) := by
  cases dd with
  | nil => exact absurd rfl hne
  | cons d0 dt =>
    have hd0 : ¬ d0 = '<' := hlt d0 (by simp)
    show (if d0 = '<' then none
      else some ((dt ++ '<' :: w).dropWhile (fun d => !(d = '<')))) = _
    rw [if_neg hd0]
    congr 1
    rw [List.dropWhile_append]
    have hdt : dt.dropWhile (fun d => !(d = '<')) = [] := by
      rw [List.dropWhile_eq_nil_iff]
      intro x hx
      simp [hlt x (by simp [hx])]
    rw [hdt]
    simp only [List.isEmpty_nil, if_pos]
    rw [List.dropWhile_cons, if_neg (by simp)]

/-- The header-pattern regex matches a canonically rendered header block
exactly, leaving the remainder, provided the display date is nonempty and
contains no `<`. -/
theorem matchHeaderAt_block (date dd r : Str) (hne : dd ≠ [])
    (hlt : ∀ c ∈ dd, ¬ c = '<') :
    matchHeaderAt date (headerBlock date dd ++ r) = some r := by
  have hnorm : headerBlock date dd ++ r =
      dayLit date ++ ('\n' :: (hdrLit ++ '\n' :: (spanLit ++
        (dd ++ (spanClose ++ '\n' :: (divClose ++ r)))))) := by
    simp [headerBlock, List.append_assoc]
  rw [hnorm]
  unfold matchHeaderAt
  rw [litAt_self]
  simp only [bindSomeStep]
  rw [dropWhile_space_nl_lt _ (by rfl), litAt_self]
  simp only [bindSomeStep]
  rw [dropWhile_space_nl_lt _ (by rfl), litAt_self]
  simp only [bindSomeStep]
  rw [spanClose_cons, nonLtPlus_append dd _ hne hlt]
  simp only [bindSomeStep]
  rw [← spanClose_cons, litAt_self]
  simp only [bindSomeStep]
  rw [dropWhile_space_nl_lt _ (by rfl), litAt_self]

theorem matchHeaderAt_none (date s : Str)
    (h : (dayLit date).isPrefixOf s = false) :
    matchHeaderAt date s = none := by
  unfold matchHeaderAt litAt
  rw [if_neg (by simp [h])]
  rfl

theorem matchHeaderAt_nil (date : Str) : matchHeaderAt date [] = none := by
  apply matchHeaderAt_none
  rw [dayLit_cons]
  rfl

theorem findHeaderAux_eq_some (date : Str) :
    ∀ (s : Str) (i L : Nat), findHeaderAux date s = some (i, L) ↔
      ((∃ rest, matchHeaderAt date (s.drop i) = some rest ∧
        L = (s.drop i).length - rest.length) ∧
      ∀ j < i, matchHeaderAt date (s.drop j) = none) := by
  intro s
  induction s with
  | nil =>
    intro i L
    constructor
    · intro hc; exact absurd hc (by simp [findHeaderAux])
    · intro ⟨⟨rest, hr, _⟩, _⟩
      rw [List.drop_nil, matchHeaderAt_nil] at hr
      exact absurd hr (by simp)
  | cons c t ih =>
    intro i L
    unfold findHeaderAux
    rcases hm : matchHeaderAt date (c :: t) with _ | rest
    · simp only [Option.map_eq_some']
      constructor
      · intro ⟨⟨i', L'⟩, hfind, heq⟩
        obtain ⟨⟨rest, hr, hL⟩, hmin⟩ := (ih i' L').mp hfind
        have hi : i' + 1 = i := congrArg Prod.fst heq
        have hL2 : L' = L := congrArg Prod.snd heq
        subst hi
        subst hL2
        refine ⟨⟨rest, ?_, ?_⟩, ?_⟩
        · rw [List.drop_succ_cons]; exact hr
        · rw [List.drop_succ_cons]; exact hL
        · intro j hj
          rcases j with _ | j'
          · simpa using hm
          · rw [List.drop_succ_cons]; exact hmin j' (by omega)
      · intro ⟨⟨rest, hr, hL⟩, hmin⟩
        rcases i with _ | i'
        · rw [List.drop_zero, hm] at hr
          exact absurd hr (by simp)
        · refine ⟨(i', L), ?_, rfl⟩
          apply (ih i' L).mpr
          refine ⟨⟨rest, ?_, ?_⟩, ?_⟩
          · rw [List.drop_succ_cons] at hr; exact hr
          · rw [List.drop_succ_cons] at hL; exact hL
          · intro j hj
            have := hmin (j + 1) (by omega)
            rwa [List.drop_succ_cons] at this
    · constructor
      · intro hc
        have h := Option.some.inj hc
        have hi : (0 : Nat) = i := congrArg Prod.fst h
        have hL : (c :: t).length - rest.length = L := congrArg Prod.snd h
        subst hi
        subst hL
        refine ⟨⟨rest, ?_, ?_⟩, by omega⟩
        · rw [List.drop_zero]; exact hm
        · rw [List.drop_zero]
      · intro ⟨⟨rest', hr, hL⟩, hmin⟩
        rcases i with _ | i'
        · rw [List.drop_zero] at hr hL
          rw [hm] at hr
          have hre : rest = rest' := by simpa using hr
          subst hre
          show some (0, (c :: t).length - rest.length) = some (0, L)
          rw [hL]
        · have := hmin 0 (by omega)
          rw [List.drop_zero, hm] at this
          exact absurd this (by simp)

/-- The first header match in a well-placed document `pre ++ block ++ rest`
(day opener first occurring at `|pre|`) is the canonical block itself. -/
theorem findHeader_at_block (pre date dd rest : Str)
    (hne : dd ≠ []) (hlt : ∀ c ∈ dd, ¬ c = '<')
    (hfi : firstIndexOf (pre ++ headerBlock date dd ++ rest) (dayLit date) =
      some pre.length) :
    findHeader (pre ++ headerBlock date dd ++ rest) date =
      some (pre.length, (headerBlock date dd).length) := by
  have hchar := (firstIndexOf_eq_some _ _ _).mp hfi
  have hdrop : (pre ++ headerBlock date dd ++ rest).drop pre.length =
      headerBlock date dd ++ rest := by
    rw [List.append_assoc, List.drop_left]
  unfold findHeader
  apply (findHeaderAux_eq_some date _ _ _).mpr
  constructor
  · refine ⟨rest, ?_, ?_⟩
    · rw [hdrop]
      exact matchHeaderAt_block date dd rest hne hlt
    · rw [hdrop]
      simp [List.length_append]
  · intro j hj
    apply matchHeaderAt_none
    exact hchar.2 j hj

/-! ## Claim C3: same-day insertion, newest first -/

theorem headerBlock_eq (date dd : Str) :
    headerBlock date dd = dayLit date ++ blockTail dd := rfl

theorem occursAtB_of_ge_length (s pat : Str) (j : Nat) (hpat : pat ≠ [])
    (hj : s.length ≤ j) : occursAtB s pat j = false := by
  unfold occursAtB
  rw [List.drop_eq_nil_of_le hj]
  cases pat with
  | nil => exact absurd rfl hpat
  | cons a t => rfl

theorem occursAtB_append_of_left (x y pat : Str) (j : Nat)
    (h : occursAtB x pat j = true) : occursAtB (x ++ y) pat j = true := by
  unfold occursAtB at h ⊢
  by_cases hj : j ≤ x.length
  · rw [List.drop_append_of_le_length hj]
    rw [List.isPrefixOf_iff_prefix] at h ⊢
    exact h.trans (List.prefix_append _ _)
  · have hdrop : x.drop j = [] := List.drop_eq_nil_of_le (by omega)
    rw [hdrop] at h
    have hpat : pat = [] := by
      rw [List.isPrefixOf_iff_prefix] at h
      exact List.prefix_nil.mp h
    subst hpat
    rw [List.isPrefixOf_iff_prefix]
    exact List.nil_prefix

theorem containsSub_append_left (x y pat : Str)
    (h : containsSub x pat = true) : containsSub (x ++ y) pat = true := by
  unfold containsSub at h ⊢
  rcases hfi : firstIndexOf x pat with _ | p
  · rw [hfi] at h; simp at h
  · have hocc := ((firstIndexOf_eq_some x pat p).mp hfi).1
    have hocc2 := occursAtB_append_of_left x y pat p hocc
    rcases hfi2 : firstIndexOf (x ++ y) pat with _ | q
    · have := firstIndexOf_none (x ++ y) pat hfi2 p
      rw [hocc2] at this
      exact absurd this (by simp)
    · rfl

theorem occursAtB_pre_day (pre date dd w : Str) :
    occursAtB (pre ++ headerBlock date dd ++ w) (dayLit date) pre.length = true := by
  have hform : pre ++ headerBlock date dd ++ w =
      pre ++ (dayLit date ++ (blockTail dd ++ w)) := by
    rw [headerBlock_eq]
    simp [List.append_assoc]
  rw [hform]
  exact occursAtB_self pre (blockTail dd ++ w) (dayLit date)

theorem take_pre_day (pre date dd w : Str) :
    (pre ++ headerBlock date dd ++ w).take (pre.length + (dayLit date).length) =
      pre ++ dayLit date := by
  rw [List.append_assoc, List.take_append]
  congr 1
  rw [headerBlock_eq, List.append_assoc]
  exact List.take_left _ _

/-- Whether the day opener occurs at a position strictly inside the leading
`pre` segment does not depend on what follows the canonical header block. -/
theorem occursAtB_day_lt_pre (pre date dd w w' : Str) (j : Nat)
    (hj : j < pre.length) :
    occursAtB (pre ++ headerBlock date dd ++ w) (dayLit date) j =
    occursAtB (pre ++ headerBlock date dd ++ w') (dayLit date) j := by
  have hN : j + (dayLit date).length ≤ pre.length + (dayLit date).length := by
    omega
  rw [← occursAtB_take (pre ++ headerBlock date dd ++ w) _ j _ hN,
    ← occursAtB_take (pre ++ headerBlock date dd ++ w') _ j _ hN,
    take_pre_day, take_pre_day]

theorem firstIndexOf_pre_day (pre date dd w : Str)
    (hmin : ∀ j < pre.length,
      occursAtB (pre ++ headerBlock date dd ++ w) (dayLit date) j = false) :
    firstIndexOf (pre ++ headerBlock date dd ++ w) (dayLit date) =
      some pre.length := by
  apply (firstIndexOf_eq_some _ _ _).mpr
  exact ⟨occursAtB_pre_day pre date dd w, hmin⟩

theorem jsSplice_some (c : Str) (p : Nat) (h : Str) :
    jsSplice c (some (p, h)) = c.take p ++ h ++ c.drop p := rfl

/-- Inserting into a document whose day section for `date` exists, with its
canonical header block first occurring right after `pre`, splices the entry
markup immediately after the header block. -/
theorem insert_existing_day (pre date dd rest time rantId rantText : Str)
    (hne : dd ≠ []) (hlt : ∀ c ∈ dd, ¬ c = '<')
    (hmark : containsSub (pre ++ headerBlock date dd ++ rest) markerLit = true)
    (hfi : firstIndexOf (pre ++ headerBlock date dd ++ rest) (dayLit date) =
      some pre.length) :
    insertRant (pre ++ headerBlock date dd ++ rest) date dd time rantId rantText =
      .ok (pre ++ headerBlock date dd ++ entryHtml time rantId rantText ++ rest) := by
  obtain ⟨idx, hidx⟩ : ∃ p,
      firstIndexOf (pre ++ headerBlock date dd ++ rest) markerLit = some p := by
    unfold containsSub at hmark
    rcases hh : firstIndexOf (pre ++ headerBlock date dd ++ rest) markerLit
      with _ | p
    · rw [hh] at hmark; simp at hmark
    · exact ⟨p, rfl⟩
  unfold insertRant
  rw [hidx]
  show Except.ok (jsSplice _ (insertPlan _ date dd time rantId rantText
    (idx + markerLit.length))) = _
  unfold insertPlan
  rw [hfi, if_pos (show (some pre.length).isSome = true from rfl),
    findHeader_at_block pre date dd rest hne hlt hfi]
  simp only [Option.map_some']
  rw [jsSplice_some]
  rw [show pre.length + (headerBlock date dd).length =
    (pre ++ headerBlock date dd).length from (List.length_append _ _).symm]
  rw [List.take_left, List.drop_left]

/-- C3: in a well-formed document whose day section for the date key first
occurs (with its canonical header block) right after `pre`, inserting entry
A splices it immediately after the header block; inserting entry B next
places it before A (within-day order newest first: B, A); and the day
opener for the date key still occurs exactly once, at its original
position — the section header is not duplicated. -/
theorem claim3_same_day_nesting_newest_first
    (pre date dd rest timeA idA textA timeB idB textB : Str)
    (hne : dd ≠ []) (hlt : ∀ c ∈ dd, ¬ c = '<')
    (hmark : containsSub pre markerLit = true)
    (hfi : firstIndexOf (pre ++ headerBlock date dd ++ rest) (dayLit date) =
      some pre.length)
    (honly : ∀ j < (headerBlock date dd ++ entryHtml timeB idB textB ++
        entryHtml timeA idA textA ++ rest).length, 0 < j →
      occursAtB (headerBlock date dd ++ entryHtml timeB idB textB ++
        entryHtml timeA idA textA ++ rest) (dayLit date) j = false) :
    insertRant (pre ++ headerBlock date dd ++ rest) date dd timeA idA textA =
      .ok (pre ++ headerBlock date dd ++ entryHtml timeA idA textA ++ rest) ∧
    insertRant (pre ++ headerBlock date dd ++ entryHtml timeA idA textA ++ rest)
        date dd timeB idB textB =
      .ok (pre ++ headerBlock date dd ++ entryHtml timeB idB textB ++
        entryHtml timeA idA textA ++ rest) ∧
    ∀ j, (occursAtB (pre ++ headerBlock date dd ++ entryHtml timeB idB textB ++
      entryHtml timeA idA textA ++ rest) (dayLit date) j = true ↔
      j = pre.length) := by
  have hminC := ((firstIndexOf_eq_some _ _ _).mp hfi).2
  have e1 : pre ++ headerBlock date dd ++ entryHtml timeA idA textA ++ rest =
      pre ++ headerBlock date dd ++ (entryHtml timeA idA textA ++ rest) := by
    simp [List.append_assoc]
  have e2 : pre ++ headerBlock date dd ++ entryHtml timeB idB textB ++
      entryHtml timeA idA textA ++ rest =
      pre ++ headerBlock date dd ++ entryHtml timeB idB textB ++
        (entryHtml timeA idA textA ++ rest) := by
    simp [List.append_assoc]
  have e6 : pre ++ headerBlock date dd ++ entryHtml timeB idB textB ++
      entryHtml timeA idA textA ++ rest =
      pre ++ (headerBlock date dd ++ entryHtml timeB idB textB ++
        entryHtml timeA idA textA ++ rest) := by
    simp [List.append_assoc]
  have e7 : pre ++ headerBlock date dd ++ entryHtml timeB idB textB ++
      entryHtml timeA idA textA ++ rest =
      pre ++ headerBlock date dd ++
        (entryHtml timeB idB textB ++ entryHtml timeA idA textA ++ rest) := by
    simp [List.append_assoc]
  have hfi1 : firstIndexOf
      (pre ++ headerBlock date dd ++ (entryHtml timeA idA textA ++ rest))
      (dayLit date) = some pre.length := by
    apply firstIndexOf_pre_day
    intro j hj
    rw [occursAtB_day_lt_pre pre date dd (entryHtml timeA idA textA ++ rest)
      rest j hj]
    exact hminC j hj
  refine ⟨?_, ?_, ?_⟩
  · exact insert_existing_day pre date dd rest timeA idA textA hne hlt
      (containsSub_append_left _ _ _
        (containsSub_append_left _ _ _ hmark)) hfi
  · rw [e1, e2]
    exact insert_existing_day pre date dd (entryHtml timeA idA textA ++ rest)
      timeB idB textB hne hlt
      (containsSub_append_left _ _ _
        (containsSub_append_left _ _ _ hmark)) hfi1
  · intro j
    constructor
    · intro hocc
      rcases Nat.lt_trichotomy j pre.length with hlt' | heq | hgt
      · exfalso
        rw [e7, occursAtB_day_lt_pre pre date dd
          (entryHtml timeB idB textB ++ entryHtml timeA idA textA ++ rest)
          rest j hlt', hminC j hlt'] at hocc
        exact absurd hocc (by simp)
      · exact heq
      · exfalso
        obtain ⟨j', rfl⟩ : ∃ j', j = pre.length + j' :=
          ⟨j - pre.length, by omega⟩
        have hj' : 0 < j' := by omega
        rw [e6, occursAtB_append_right] at hocc
        by_cases hlen : j' < (headerBlock date dd ++ entryHtml timeB idB textB ++
            entryHtml timeA idA textA ++ rest).length
        · rw [honly j' hlen hj'] at hocc
          exact absurd hocc (by simp)
        · rw [occursAtB_of_ge_length _ _ j' (dayLit_ne_nil date)
            (by omega)] at hocc
          exact absurd hocc (by simp)
    · intro heq
      subst heq
      rw [e7]
      exact occursAtB_pre_day pre date dd _

set_option maxRecDepth 1000000 in
theorem claim3_witness :
    insertRant (str "<div class=\"rants-timeline\">\n" ++
        headerBlock (str "2024-01-01") (str "January 1, 2024") ++
        str "\n\n</div>\n</div>") (str "2024-01-01") (str "January 1, 2024")
        (str "9:00 AM") (str "rant-2024-01-01-1") (str "first") =
      .ok (str "<div class=\"rants-timeline\">\n" ++
        headerBlock (str "2024-01-01") (str "January 1, 2024") ++
        entryHtml (str "9:00 AM") (str "rant-2024-01-01-1") (str "first") ++
        str "\n\n</div>\n</div>") ∧
    insertRant (str "<div class=\"rants-timeline\">\n" ++
        headerBlock (str "2024-01-01") (str "January 1, 2024") ++
        entryHtml (str "9:00 AM") (str "rant-2024-01-01-1") (str "first") ++
        str "\n\n</div>\n</div>") (str "2024-01-01") (str "January 1, 2024")
        (str "9:05 AM") (str "rant-2024-01-01-2") (str "second") =
      .ok (str "<div class=\"rants-timeline\">\n" ++
        headerBlock (str "2024-01-01") (str "January 1, 2024") ++
        entryHtml (str "9:05 AM") (str "rant-2024-01-01-2") (str "second") ++
        entryHtml (str "9:00 AM") (str "rant-2024-01-01-1") (str "first") ++
        str "\n\n</div>\n</div>") ∧
    (occursAtB (str "<div class=\"rants-timeline\">\n" ++
        headerBlock (str "2024-01-01") (str "January 1, 2024") ++
        entryHtml (str "9:05 AM") (str "rant-2024-01-01-2") (str "second") ++
        entryHtml (str "9:00 AM") (str "rant-2024-01-01-1") (str "first") ++
        str "\n\n</div>\n</div>") (dayLit (str "2024-01-01"))
        (str "<div class=\"rants-timeline\">\n").length = true ↔
      (str "<div class=\"rants-timeline\">\n").length =
        (str "<div class=\"rants-timeline\">\n").length) := by
  have T := claim3_same_day_nesting_newest_first
    (str "<div class=\"rants-timeline\">\n") (str "2024-01-01")
    (str "January 1, 2024") (str "\n\n</div>\n</div>")
    (str "9:00 AM") (str "rant-2024-01-01-1") (str "first")
    (str "9:05 AM") (str "rant-2024-01-01-2") (str "second")
    (by decide) (by decide) (by decide) (by decide) (by decide)
  exact ⟨T.1, T.2.1, T.2.2 (str "<div class=\"rants-timeline\">\n").length⟩

/-! ## Claim C9: auto-linking is the identity on texts with no URL token -/

/-- C9: for every raw text containing no URL-like token, auto-linking is the
identity — no escaping or alteration of embedded markup happens. -/
theorem claim9_no_url_token_identity (text : Str)
    (h : hasUrlToken text = false) : autoLinkUrls text = text := by
  unfold autoLinkUrls
  induction text with
  | nil => rfl
  | cons c t ih =>
    unfold hasUrlToken at h
    simp only [Bool.or_eq_false_iff] at h
    obtain ⟨h1, h2⟩ := h
    have htm : tryMatchAt (c :: t) = none := by
      rcases hx : tryMatchAt (c :: t) with _ | n
      · rfl
      · rw [hx] at h1; simp at h1
    show autoLinkAux (t.length + 1) (c :: t) = c :: t
    unfold autoLinkAux
    rw [htm]
    exact congrArg (c :: ·) (ih h2)

theorem claim9_witness :
    hasUrlToken (str "just <b>some</b> markup, no links!") = false ∧
    autoLinkUrls (str "just <b>some</b> markup, no links!") =
      str "just <b>some</b> markup, no links!" :=
  ⟨by decide,
    claim9_no_url_token_identity (str "just <b>some</b> markup, no links!")
      (by decide)⟩

/-! ## Claim C7: trailing punctuation is excluded from links -/

theorem getLastD_reverse (l : Str) (d : Char) :
    l.reverse.getLastD d = l.headD d := by
  cases l with
  | nil => rfl
  | cons a t => simp [List.reverse_cons, List.getLastD_concat]

theorem strip_append_trailing (m : Str) :
    stripTrailingPunct m ++ (m.reverse.takeWhile isTrailPunct).reverse = m := by
  unfold stripTrailingPunct
  rw [← List.reverse_append, List.takeWhile_append_dropWhile,
    List.reverse_reverse]

theorem stripTrailingPunct_drop (m : Str) :
    m.drop (stripTrailingPunct m).length =
      (m.reverse.takeWhile isTrailPunct).reverse := by
  nth_rewrite 2 [← strip_append_trailing m]
  rw [List.drop_left]

theorem stripTrailingPunct_split (m : Str) :
    m = stripTrailingPunct m ++ m.drop (stripTrailingPunct m).length := by
  rw [stripTrailingPunct_drop]
  exact (strip_append_trailing m).symm

theorem trailing_all_punct (m : Str) :
    ∀ c ∈ m.drop (stripTrailingPunct m).length, isTrailPunct c = true := by
  rw [stripTrailingPunct_drop]
  intro c hc
  rw [List.mem_reverse] at hc
  exact List.mem_takeWhile_imp hc

theorem strip_getLastD_not_punct (m : Str) :
    isTrailPunct ((stripTrailingPunct m).getLastD 'a') = false := by
  unfold stripTrailingPunct
  rw [getLastD_reverse]
  rcases hd : m.reverse.dropWhile isTrailPunct with _ | ⟨x, xs⟩
  · decide
  · have h2 := List.head?_dropWhile_not isTrailPunct m.reverse
    rw [hd] at h2
    have hx : isTrailPunct x = false := by simpa using h2
    exact hx

set_option maxRecDepth 100000 in
/-- C7: for every matched URL token, the replacer splits it into a clean
part and a maximal trailing run of the punctuation characters `. , ; : ! ?`;
the punctuation is excluded from both the link target and the anchored text
and re-emitted after the closing anchor tag, and a scheme-less token gets an
`https://` target.  In particular, `"See https://example.com/a,b."` is
rendered with target `https://example.com/a,b` and the trailing period
outside the anchor. -/
theorem claim7_trailing_punctuation_outside_anchor :
    (∀ m : Str,
      m = stripTrailingPunct m ++ m.drop (stripTrailingPunct m).length ∧
      (∀ c ∈ m.drop (stripTrailingPunct m).length, isTrailPunct c = true) ∧
      isTrailPunct ((stripTrailingPunct m).getLastD 'a') = false ∧
      (hasUrlScheme (stripTrailingPunct m) = false →
        linkReplacer m =
          str "<a href=\"" ++ (str "https://" ++ stripTrailingPunct m) ++
          str "\" target=\"_blank\" rel=\"noopener noreferrer\">" ++
          stripTrailingPunct m ++ str "</a>" ++
          m.drop (stripTrailingPunct m).length) ∧
      (hasUrlScheme (stripTrailingPunct m) = true →
        linkReplacer m =
          str "<a href=\"" ++ stripTrailingPunct m ++
          str "\" target=\"_blank\" rel=\"noopener noreferrer\">" ++
          stripTrailingPunct m ++ str "</a>" ++
          m.drop (stripTrailingPunct m).length)) ∧
    autoLinkUrls (str "See https://example.com/a,b.") =
      str "See <a href=\"https://example.com/a,b\" target=\"_blank\" rel=\"noopener noreferrer\">https://example.com/a,b</a>." := by
  constructor
  · intro m
    have hrepl : linkReplacer m =
        str "<a href=\"" ++
          (if hasUrlScheme (stripTrailingPunct m) = true then stripTrailingPunct m
           else str "https://" ++ stripTrailingPunct m) ++
          str "\" target=\"_blank\" rel=\"noopener noreferrer\">" ++
          stripTrailingPunct m ++ str "</a>" ++
          m.drop (stripTrailingPunct m).length := rfl
    refine ⟨stripTrailingPunct_split m, trailing_all_punct m,
      strip_getLastD_not_punct m, ?_, ?_⟩
    · intro hs
      rw [hrepl, if_neg (by simp [hs])]
    · intro hs
      rw [hrepl, if_pos hs]
  · decide

set_option maxRecDepth 100000 in
theorem claim7_witness :
    hasUrlScheme (stripTrailingPunct (str "example.com.")) = false ∧
    linkReplacer (str "example.com.") =
      str "<a href=\"" ++ (str "https://" ++ stripTrailingPunct (str "example.com.")) ++
      str "\" target=\"_blank\" rel=\"noopener noreferrer\">" ++
      stripTrailingPunct (str "example.com.") ++ str "</a>" ++
      (str "example.com.").drop (stripTrailingPunct (str "example.com.")).length :=
  ⟨by decide,
    (claim7_trailing_punctuation_outside_anchor.1 (str "example.com.")).2.2.2.1
      (by decide)⟩

/-! ## Claim C10: argument parsing and the rant text -/

/-- C10 as stated is false: in `rant -m msg world`, the first argument not
starting with `-` is `msg`, but it is consumed as the value of `-m`; the
parsed rant text is `world`, not `msg world`. -/
theorem claim10_counterexample :
    parsedRantText [str "tourwithmark"] [str "-m", str "msg", str "world"] =
      some (str "world") ∧
    claimRantText [str "-m", str "msg", str "world"] =
      some (str "msg world") ∧
    parsedRantText [str "tourwithmark"] [str "-m", str "msg", str "world"] ≠
      claimRantText [str "-m", str "msg", str "world"] := by
  refine ⟨by decide, by decide, by decide⟩

/-- C10 (amended): the first argument reached in flag position (that is,
not consumed as the value of an immediately preceding `-m`/`--message` or
`-s`/`--site`) that does not start with `-` is joined, together with every
argument after it, by single spaces into the rant text; arguments after
that point are never interpreted as flags and have no effect on the parsed
options, whatever option state has accumulated. -/
theorem claim10_amended_first_bare_argument_ends_flags
    (sites : List Str) (o : Options) (a : Str) (rest : List Str)
    (h : startsDash a = false) :
    parseLoop sites o (a :: rest) =
      .ok { o with rantText := some (joinSpaces (a :: rest)) } := by
  have hne : ∀ w : Str, startsDash w = true → ¬ a = w := by
    intro w hw ha
    rw [ha, hw] at h
    exact absurd h (by simp)
  unfold parseLoop
  rw [if_neg (fun hor => hor.elim (hne (str "-c") (by decide))
      (hne (str "--commit") (by decide))),
    if_neg (fun hor => hor.elim (hne (str "-p") (by decide))
      (hne (str "--push") (by decide))),
    if_neg (fun hor => hor.elim (hne (str "-e") (by decide))
      (hne (str "--editor") (by decide))),
    if_neg (hne (str "--gui") (by decide)),
    if_neg (fun hor => hor.elim (hne (str "-m") (by decide))
      (hne (str "--message") (by decide))),
    if_neg (fun hor => hor.elim (hne (str "-f") (by decide))
      (hne (str "--format") (by decide))),
    if_neg (fun hor => hor.elim (hne (str "-s") (by decide))
      (hne (str "--site") (by decide))),
    if_neg (hne (str "--config") (by decide)),
    if_neg (hne (str "--env") (by decide)),
    if_neg (fun hor => hor.elim (hne (str "-h") (by decide))
      (hne (str "--help") (by decide))),
    if_neg (by simp [h])]

theorem claim10_witness :
    parseLoop [str "tourwithmark"] defaultOptions
      [str "hello", str "-p", str "world"] =
      .ok { defaultOptions with
        rantText := some (joinSpaces [str "hello", str "-p", str "world"]) } :=
  claim10_amended_first_bare_argument_ends_flags [str "tourwithmark"]
    defaultOptions (str "hello") [str "-p", str "world"] (by decide)

/-! ## Claim C6: pull before mutation; pull failure aborts everything -/

/-- C6: whenever publishing was requested, the pull on the configured
branch is the first repository-affecting event — it precedes any document
mutation — and if the pull fails the run exits with code 1: the document is
unchanged and no write, stage, commit or push is performed. -/
theorem claim6_pull_first_and_abort_on_failure
    (o : Options) (t : Str) (pullOk : Bool)
    (content date displayDate time rantId statusOut defaultMsg siteFile
      siteBranch : Str)
    (henv : o.showEnv = false) (hcfg : o.config = false)
    (hpush : o.push = true) (ht : ¬ t = []) :
    (mainModel o (some t) pullOk content date displayDate time rantId
        statusOut defaultMsg siteFile siteBranch).1.head? =
      some (MainEv.pull siteBranch) ∧
    (pullOk = false →
      mainModel o (some t) pullOk content date displayDate time rantId
          statusOut defaultMsg siteFile siteBranch =
        ([MainEv.pull siteBranch], some 1, content) ∧
      MainEv.write ∉ (mainModel o (some t) pullOk content date displayDate
        time rantId statusOut defaultMsg siteFile siteBranch).1 ∧
      ∀ g, MainEv.git g ∉ (mainModel o (some t) pullOk content date
        displayDate time rantId statusOut defaultMsg siteFile
        siteBranch).1) := by
  rcases pullOk with _ | _
  · have hm : mainModel o (some t) false content date displayDate time rantId
        statusOut defaultMsg siteFile siteBranch =
        ([MainEv.pull siteBranch], some 1, content) := by
      simp [mainModel, henv, hcfg, hpush, ht]
    rw [hm]
    exact ⟨rfl, fun _ => ⟨rfl, by simp, by simp⟩⟩
  · constructor
    · rcases hins : insertRant content date displayDate time rantId t
        with _ | newContent <;>
        simp [mainModel, henv, hcfg, hpush, ht, hins]
    · intro hcontra
      exact absurd hcontra (by simp)

theorem claim6_witness :
    mainModel { defaultOptions with push := true, commit := true }
      (some (str "hi")) false (str "doc") (str "2024-01-01")
      (str "January 1, 2024") (str "9:00 AM") (str "rant-1") (str "")
      (str "Add rant") (str "rants.qmd") (str "main") =
      ([MainEv.pull (str "main")], some 1, str "doc") :=
  ((claim6_pull_first_and_abort_on_failure
    { defaultOptions with push := true, commit := true } (str "hi") false
    (str "doc") (str "2024-01-01") (str "January 1, 2024") (str "9:00 AM")
    (str "rant-1") (str "") (str "Add rant") (str "rants.qmd") (str "main")
    (by decide) (by decide) (by decide) (by decide)).2 rfl).1

/-! ## Claim C8: the post-write no-op check -/

theorem occursAtB_eq_false_of_imp (s pat : Str) (j : Nat)
    (h : occursAtB s pat j = true → False) : occursAtB s pat j = false := by
  rcases hx : occursAtB s pat j with _ | _
  · rfl
  · exact (h hx).elim

theorem containsSub_eq_false_iff_forall (s pat : Str) :
    containsSub s pat = false ↔ ∀ j, occursAtB s pat j = false := by
  constructor
  · intro h j
    exact firstIndexOf_none s pat ((containsSub_false_iff s pat).mp h) j
  · intro h
    apply (containsSub_false_iff s pat).mpr
    rcases hfi : firstIndexOf s pat with _ | q
    · rfl
    · have hq := ((firstIndexOf_eq_some s pat q).mp hfi).1
      rw [h q] at hq
      exact absurd hq (by simp)

/-- A character inside the window of an occurrence of `pat` belongs to
`pat`. -/
theorem mem_of_occursAtB (s pat : Str) (i q : Nat)
    (h : occursAtB s pat i = true) (h1 : i ≤ q) (h2 : q < i + pat.length)
    (c : Char) (hc : s[q]? = some c) : c ∈ pat := by
  unfold occursAtB at h
  rw [List.isPrefixOf_iff_prefix, List.prefix_iff_eq_take] at h
  have hq : pat[q - i]? = some c := by
    rw [h, List.getElem?_take, if_pos (by omega), List.getElem?_drop,
      show i + (q - i) = q from by omega]
    exact hc
  exact List.getElem?_mem hq

theorem occursAtB_mid (p rest file : Str)
    (hnl : '\n' ∉ file)
    (hp : ∀ i, occursAtB p file i = false)
    (hrest : ∀ i, occursAtB rest file i = false) :
    ∀ i, occursAtB (p ++ '\n' :: rest) file i = false := by
  intro i
  apply occursAtB_eq_false_of_imp
  intro hocc
  by_cases hin : i + file.length ≤ p.length
  · rw [← occursAtB_take (p ++ '\n' :: rest) file i p.length hin,
      List.take_left, hp i] at hocc
    exact absurd hocc (by simp)
  · by_cases hi : i ≤ p.length
    · have hval : (p ++ '\n' :: rest)[p.length]? = some '\n' := by
        rw [List.getElem?_append_right (le_refl p.length)]
        simp
      exact hnl (mem_of_occursAtB (p ++ '\n' :: rest) file i p.length hocc hi
        (by omega) '\n' hval)
    · obtain ⟨i', rfl⟩ : ∃ i', i = p.length + (i' + 1) :=
        ⟨i - p.length - 1, by omega⟩
      rw [occursAtB_append_right p ('\n' :: rest) file (i' + 1),
        occursAtB_succ, hrest i'] at hocc
      exact absurd hocc (by simp)

theorem occursAtB_status_line (p rest file : Str)
    (hsp : ' ' ∉ file) (hnl : '\n' ∉ file) (hlen : 2 ≤ file.length)
    (hp : ∀ i, occursAtB p file i = false)
    (hrest : ∀ i, occursAtB rest file i = false) :
    ∀ j, occursAtB (str " M " ++ (p ++ '\n' :: rest)) file j = false := by
  intro j
  apply occursAtB_eq_false_of_imp
  intro hocc
  rcases j with _ | j
  · have hval : (str " M " ++ (p ++ '\n' :: rest))[0]? = some ' ' := rfl
    exact hsp (mem_of_occursAtB _ file 0 0 hocc (by omega) (by omega) ' ' hval)
  rcases j with _ | j
  · have hval : (str " M " ++ (p ++ '\n' :: rest))[2]? = some ' ' := by
      rw [show str " M " ++ (p ++ '\n' :: rest) =
        ' ' :: 'M' :: ' ' :: (p ++ '\n' :: rest) from rfl]
      simp
    exact hsp (mem_of_occursAtB _ file 1 2 hocc (by omega) (by omega) ' ' hval)
  rcases j with _ | j
  · have hval : (str " M " ++ (p ++ '\n' :: rest))[2]? = some ' ' := by
      rw [show str " M " ++ (p ++ '\n' :: rest) =
        ' ' :: 'M' :: ' ' :: (p ++ '\n' :: rest) from rfl]
      simp
    exact hsp (mem_of_occursAtB _ file 2 2 hocc (by omega) (by omega) ' ' hval)
  · rw [show j + 1 + 1 + 1 = (str " M ").length + j from by
        rw [show (str " M ").length = 3 from rfl]; omega,
      occursAtB_append_right, occursAtB_mid p rest file hnl hp hrest j] at hocc
    exact absurd hocc (by simp)

theorem renderStatus_no_sub (file : Str)
    (hsp : ' ' ∉ file) (hnl : '\n' ∉ file) (hlen : 2 ≤ file.length) :
    ∀ paths : List Str, (∀ p ∈ paths, containsSub p file = false) →
      containsSub (renderStatus paths) file = false := by
  intro paths
  induction paths with
  | nil =>
    intro _
    apply (containsSub_eq_false_iff_forall _ _).mpr
    intro j
    apply occursAtB_of_ge_length
    · intro hx
      rw [hx] at hlen
      simp at hlen
    · simp [renderStatus]
  | cons p ps ih =>
    intro hall
    apply (containsSub_eq_false_iff_forall _ _).mpr
    intro j
    exact occursAtB_status_line p (renderStatus ps) file hsp hnl hlen
      ((containsSub_eq_false_iff_forall p file).mp (hall p (by simp)))
      ((containsSub_eq_false_iff_forall _ file).mp
        (ih (fun q hq => hall q (by simp [hq])))) j

/-- C8 as stated is false: the source inspects full-repository porcelain
status (no pathspec) and tests `status.includes(file)`, a substring test.
With only `old-rants.qmd` modified — no change to the target `rants.qmd` —
the substring test still succeeds, and the orchestrator stages and commits
instead of stopping as a no-op. -/
theorem claim8_counterexample :
    (str "rants.qmd") ∉ [str "old-rants.qmd"] ∧
    gitOperations true false none (str "rants.qmd") (str "main")
      (renderStatus [str "old-rants.qmd"]) (str "Add rant: now") =
      [GitStep.status, GitStep.add (str "rants.qmd"),
        GitStep.commit (str "Add rant: now")] ∧
    GitStep.add (str "rants.qmd") ∈
      gitOperations true false none (str "rants.qmd") (str "main")
        (renderStatus [str "old-rants.qmd"]) (str "Add rant: now") :=
  ⟨by decide, by decide, by decide⟩

/-- C8 (amended): after the write, the orchestrator inspects the
full-repository porcelain status and stops as a no-op — only the status
inspection happens, no stage, commit or push — exactly when the target
filename does not occur as a substring of the status output.  In
particular it stops whenever the target file is unchanged and no other
changed path contains the filename as a substring; but when the target
filename does occur as a substring (even via an unrelated path), it
proceeds to stage, then commit and push as requested. -/
theorem claim8_amended_substring_noop
    (commit push : Bool) (message : Option Str)
    (file branch statusOut defaultMsg : Str) (paths : List Str)
    (hsp : ' ' ∉ file) (hnl : '\n' ∉ file) (hlen : 2 ≤ file.length)
    (hpaths : ∀ p ∈ paths, containsSub p file = false) :
    (containsSub statusOut file = false →
      gitOperations commit push message file branch statusOut defaultMsg =
        [GitStep.status]) ∧
    gitOperations commit push message file branch (renderStatus paths)
      defaultMsg = [GitStep.status] ∧
    (containsSub statusOut file = true →
      gitOperations commit push message file branch statusOut defaultMsg =
        GitStep.status :: GitStep.add file ::
          (if commit then
            GitStep.commit (message.getD defaultMsg) ::
              (if push then [GitStep.push branch] else [])
          else [])) := by
  refine ⟨?_, ?_, ?_⟩
  · intro h
    unfold gitOperations
    rw [h, if_pos rfl]
  · have hc := renderStatus_no_sub file hsp hnl hlen paths hpaths
    unfold gitOperations
    rw [hc, if_pos rfl]
  · intro h
    unfold gitOperations
    rw [h, if_neg (by simp)]

theorem claim8_witness :
    gitOperations true true (some (str "custom message")) (str "rants.qmd")
      (str "main") (renderStatus [str "styles.css"]) (str "Add rant: now") =
      [GitStep.status] :=
  (claim8_amended_substring_noop true true (some (str "custom message"))
    (str "rants.qmd") (str "main") (renderStatus [str "styles.css"])
    (str "Add rant: now") [str "styles.css"] (by decide) (by decide)
    (by decide) (by decide)).2.1

end RantScript
